import Mathlib

/-!
# Verification of the ProxmoxMCP token-at-rest encryption subsystem

A shallow embedding of `src/proxmox_mcp/utils/encryption.py`,
`src/proxmox_mcp/utils/encrypt_config.py` and
`src/proxmox_mcp/config/loader.py` (the token encryption, error
classification and key-rotation workflow), together with theorems settling
the specification claims about them.

Conventions of the embedding:
* Python `str` values are modelled as `List Char`; Python `bytes` as
  `List Nat` with every element `< 256`.
* `os.urandom` draws (salts, generated keys) are explicit parameters.
* The external `cryptography` library (PBKDF2, Fernet) and Python's
  `base64`/UTF-8 codecs are modelled from their documented contracts,
  executably, as noted at each definition.
* Exceptions are `Except` values carrying the Python message string;
  `sys.exit(n)` is an explicit exit code in the result record.
-/

namespace ProxmoxMCP

/-! ## Generic string utilities (Python `str` operations on `List Char`) -/

/-- Python `needle.isprefix` check: `isPre p l` is true iff `p` is a prefix
of `l` (used for `str.startswith`). -/
def isPre : List Char → List Char → Bool
  | [], _ => true
  | _ :: _, [] => false
  | a :: as, b :: bs => a == b && isPre as bs

/-- Python `needle in hay` substring test. -/
def containsSub (needle : List Char) : List Char → Bool
  | [] => needle.isEmpty
  | c :: t => isPre needle (c :: t) || containsSub needle t

/-- Python `str.split(sep)` on a one-character separator: `n` separators
yield `n + 1` (possibly empty) parts; the empty string yields `[[]]`. -/
def splitSep (sep : Char) : List Char → List (List Char)
  | [] => [[]]
  | c :: rest =>
    match splitSep sep rest with
    | [] => [[]]
    | p :: ps => if c = sep then [] :: p :: ps else (c :: p) :: ps

/-- ASCII lowering of one character, as Python `str.lower` acts on the
ASCII error messages this code inspects. -/
def lowerChar (c : Char) : Char :=
  if 'A' ≤ c ∧ c ≤ 'Z' then Char.ofNat (c.toNat + 32) else c

/-- Python `str.lower()` on `List Char` (ASCII range). -/
def lowerStr (s : List Char) : List Char := s.map lowerChar

/-! ## Base64url (Python `base64.urlsafe_b64encode` / `urlsafe_b64decode`)

Executable model of the standard base64url codec with `=` padding, the
encoding used for master keys, salts and ciphertexts.  The decoder is the
inverse of the encoder on well-formed (properly padded) base64 text, which
is the domain on which the repository uses it. -/

/-- The base64url alphabet, index `0`–`63`. -/
def b64Alpha : List Char :=
  "ABCDEFGHIJKLMNOPQRSTUVWXYZabcdefghijklmnopqrstuvwxyz0123456789-_".toList

/-- Character of a 6-bit group (out-of-range indices, which never arise
from byte arithmetic, fall back to the first alphabet character). -/
def b64Chr (n : Nat) : Char := b64Alpha.getD n 'A'

/-- Membership in the base64url alphabet. -/
def isB64C (c : Char) : Bool := decide (c ∈ b64Alpha)

def b64ValAux : List Char → Nat → Char → Option Nat
  | [], _, _ => none
  | a :: rest, i, c => if c = a then some i else b64ValAux rest (i + 1) c

/-- Index of a character in the base64url alphabet. -/
def b64Val (c : Char) : Option Nat := b64ValAux b64Alpha 0 c

/-- Encode bytes three at a time into four base64url characters, padding
the final partial group with `=`. -/
def b64EncChunks : List Nat → List Char
  | [] => []
  | [b1] => [b64Chr (b1 / 4), b64Chr (b1 % 4 * 16), '=', '=']
  | [b1, b2] =>
      [b64Chr (b1 / 4), b64Chr (b1 % 4 * 16 + b2 / 16), b64Chr (b2 % 16 * 4), '=']
  | b1 :: b2 :: b3 :: rest =>
      b64Chr (b1 / 4) :: b64Chr (b1 % 4 * 16 + b2 / 16) ::
      b64Chr (b2 % 16 * 4 + b3 / 64) :: b64Chr (b3 % 64) :: b64EncChunks rest

/-- `base64.urlsafe_b64encode` on bytes, yielding text. -/
def b64UrlEncode (bs : List Nat) : List Char := b64EncChunks bs

/-- Decode four base64url characters at a time; `=` padding is accepted
only in a final group; any other shape (wrong length, stray characters)
fails, as Python's strict-padding decoder does on the inputs the
repository feeds it. -/
def b64DecChunks : List Char → Option (List Nat)
  | [] => some []
  | c1 :: c2 :: c3 :: c4 :: rest => do
      let s1 ← b64Val c1
      let s2 ← b64Val c2
      if c3 = '=' then
        if c4 = '=' ∧ rest = [] then pure [s1 * 4 + s2 / 16] else none
      else do
        let s3 ← b64Val c3
        if c4 = '=' then
          if rest = [] then pure [s1 * 4 + s2 / 16, s2 % 16 * 16 + s3 / 4] else none
        else do
          let s4 ← b64Val c4
          let bs ← b64DecChunks rest
          pure ((s1 * 4 + s2 / 16) :: (s2 % 16 * 16 + s3 / 4) :: (s3 % 4 * 64 + s4) :: bs)
  | _ => none

/-- `base64.urlsafe_b64decode` on text, yielding bytes (or failing). -/
def b64UrlDecode (s : List Char) : Option (List Nat) := b64DecChunks s

/-! ### Base64 lemmas -/

theorem b64Chr_mem (n : Nat) : b64Chr n ∈ b64Alpha := by
  unfold b64Chr
  by_cases h : n < b64Alpha.length
  · rw [List.getD_eq_getElem _ _ h]
    exact List.getElem_mem h
  · rw [List.getD_eq_default _ _ (by omega)]
    decide

theorem b64_mem_ne_colon : ∀ c ∈ b64Alpha, c ≠ ':' := by decide

theorem b64_mem_ne_eq : ∀ c ∈ b64Alpha, c ≠ '=' := by decide

theorem b64Chr_ne_colon (n : Nat) : b64Chr n ≠ ':' :=
  b64_mem_ne_colon _ (b64Chr_mem n)

theorem b64Chr_ne_eq (n : Nat) : b64Chr n ≠ '=' :=
  b64_mem_ne_eq _ (b64Chr_mem n)

theorem b64Val_b64Chr : ∀ n < 64, b64Val (b64Chr n) = some n := by decide

theorem b64ValAux_lt : ∀ (l : List Char) (i : Nat) (c : Char) (v : Nat),
    b64ValAux l i c = some v → v < i + l.length := by
  intro l
  induction l with
  | nil => intro i c v h; simp [b64ValAux] at h
  | cons a rest ih =>
    intro i c v h
    unfold b64ValAux at h
    by_cases hc : c = a
    · rw [if_pos hc] at h
      injection h with h
      simp only [List.length_cons]
      omega
    · rw [if_neg hc] at h
      have := ih (i + 1) c v h
      simp only [List.length_cons]
      omega

theorem b64Val_lt (c : Char) (v : Nat) (h : b64Val c = some v) : v < 64 := by
  have := b64ValAux_lt b64Alpha 0 c v h
  simpa using this

theorem b64_roundtrip : ∀ bs : List Nat, (∀ b ∈ bs, b < 256) →
    b64DecChunks (b64EncChunks bs) = some bs
  | [], _ => rfl
  | [b1], h => by
      have hb1 : b1 < 256 := h b1 (by simp)
      have e1 : b64Val (b64Chr (b1 / 4)) = some (b1 / 4) := b64Val_b64Chr _ (by omega)
      have e2 : b64Val (b64Chr (b1 % 4 * 16)) = some (b1 % 4 * 16) :=
        b64Val_b64Chr _ (by omega)
      simp [b64EncChunks, b64DecChunks, e1, e2]
      omega
  | [b1, b2], h => by
      have hb1 : b1 < 256 := h b1 (by simp)
      have hb2 : b2 < 256 := h b2 (by simp)
      have e1 : b64Val (b64Chr (b1 / 4)) = some (b1 / 4) := b64Val_b64Chr _ (by omega)
      have e2 : b64Val (b64Chr (b1 % 4 * 16 + b2 / 16)) = some (b1 % 4 * 16 + b2 / 16) :=
        b64Val_b64Chr _ (by omega)
      have e3 : b64Val (b64Chr (b2 % 16 * 4)) = some (b2 % 16 * 4) :=
        b64Val_b64Chr _ (by omega)
      simp [b64EncChunks, b64DecChunks, e1, e2, e3, b64Chr_ne_eq]
      omega
  | b1 :: b2 :: b3 :: c :: rest, h => by
      have hb1 : b1 < 256 := h b1 (by simp)
      have hb2 : b2 < 256 := h b2 (by simp)
      have hb3 : b3 < 256 := h b3 (by simp)
      have e1 : b64Val (b64Chr (b1 / 4)) = some (b1 / 4) := b64Val_b64Chr _ (by omega)
      have e2 : b64Val (b64Chr (b1 % 4 * 16 + b2 / 16)) = some (b1 % 4 * 16 + b2 / 16) :=
        b64Val_b64Chr _ (by omega)
      have e3 : b64Val (b64Chr (b2 % 16 * 4 + b3 / 64)) = some (b2 % 16 * 4 + b3 / 64) :=
        b64Val_b64Chr _ (by omega)
      have e4 : b64Val (b64Chr (b3 % 64)) = some (b3 % 64) := b64Val_b64Chr _ (by omega)
      have ih := b64_roundtrip (c :: rest) (fun b hb => h b (by simp at hb ⊢; tauto))
      simp [b64EncChunks, b64DecChunks, e1, e2, e3, e4, b64Chr_ne_eq, ih]
      omega
  | [b1, b2, b3], h => by
      have hb1 : b1 < 256 := h b1 (by simp)
      have hb2 : b2 < 256 := h b2 (by simp)
      have hb3 : b3 < 256 := h b3 (by simp)
      have e1 : b64Val (b64Chr (b1 / 4)) = some (b1 / 4) := b64Val_b64Chr _ (by omega)
      have e2 : b64Val (b64Chr (b1 % 4 * 16 + b2 / 16)) = some (b1 % 4 * 16 + b2 / 16) :=
        b64Val_b64Chr _ (by omega)
      have e3 : b64Val (b64Chr (b2 % 16 * 4 + b3 / 64)) = some (b2 % 16 * 4 + b3 / 64) :=
        b64Val_b64Chr _ (by omega)
      have e4 : b64Val (b64Chr (b3 % 64)) = some (b3 % 64) := b64Val_b64Chr _ (by omega)
      simp [b64EncChunks, b64DecChunks, e1, e2, e3, e4, b64Chr_ne_eq]
      omega

theorem b64_chars : ∀ (bs : List Nat) (c : Char),
    c ∈ b64EncChunks bs → c ∈ b64Alpha ∨ c = '='
  | [], c, h => by simp [b64EncChunks] at h
  | [b1], c, h => by
      simp [b64EncChunks] at h
      rcases h with h | h | h
      · exact Or.inl (h ▸ b64Chr_mem _)
      · exact Or.inl (h ▸ b64Chr_mem _)
      · exact Or.inr h
  | [b1, b2], c, h => by
      simp [b64EncChunks] at h
      rcases h with h | h | h | h
      · exact Or.inl (h ▸ b64Chr_mem _)
      · exact Or.inl (h ▸ b64Chr_mem _)
      · exact Or.inl (h ▸ b64Chr_mem _)
      · exact Or.inr h
  | b1 :: b2 :: b3 :: d :: rest, c, h => by
      simp only [b64EncChunks, List.mem_cons] at h
      rcases h with h | h | h | h | h
      · exact Or.inl (h ▸ b64Chr_mem _)
      · exact Or.inl (h ▸ b64Chr_mem _)
      · exact Or.inl (h ▸ b64Chr_mem _)
      · exact Or.inl (h ▸ b64Chr_mem _)
      · exact b64_chars (d :: rest) c h
  | [b1, b2, b3], c, h => by
      simp only [b64EncChunks, List.mem_cons, List.not_mem_nil, or_false] at h
      rcases h with h | h | h | h
      · exact Or.inl (h ▸ b64Chr_mem _)
      · exact Or.inl (h ▸ b64Chr_mem _)
      · exact Or.inl (h ▸ b64Chr_mem _)
      · exact Or.inl (h ▸ b64Chr_mem _)

theorem b64Enc_ne_colon (bs : List Nat) : ∀ c ∈ b64EncChunks bs, c ≠ ':' := by
  intro c hc
  rcases b64_chars bs c hc with h | h
  · exact b64_mem_ne_colon c h
  · subst h; decide

theorem b64Dec_lt : ∀ (s : List Char) (bs : List Nat),
    b64DecChunks s = some bs → ∀ b ∈ bs, b < 256
  | [], bs, h => by
      simp [b64DecChunks] at h
      subst h; simp
  | [c1], bs, h => by simp [b64DecChunks] at h
  | [c1, c2], bs, h => by simp [b64DecChunks] at h
  | [c1, c2, c3], bs, h => by simp [b64DecChunks] at h
  | c1 :: c2 :: c3 :: c4 :: rest, bs, h => by
      unfold b64DecChunks at h
      cases hv1 : b64Val c1 with
      | none => rw [hv1] at h; simp at h
      | some s1 =>
        cases hv2 : b64Val c2 with
        | none => rw [hv1, hv2] at h; simp at h
        | some s2 =>
          rw [hv1, hv2] at h
          simp only [Option.bind_eq_bind, Option.some_bind] at h
          have hs1 : s1 < 64 := b64Val_lt _ _ hv1
          have hs2 : s2 < 64 := b64Val_lt _ _ hv2
          by_cases h3 : c3 = '='
          · rw [if_pos h3] at h
            by_cases h4 : c4 = '=' ∧ rest = []
            · rw [if_pos h4] at h
              simp at h
              subst h
              intro b hb
              simp at hb
              omega
            · rw [if_neg h4] at h; simp at h
          · rw [if_neg h3] at h
            cases hv3 : b64Val c3 with
            | none => rw [hv3] at h; simp at h
            | some s3 =>
              rw [hv3] at h
              simp only [Option.bind_eq_bind, Option.some_bind] at h
              have hs3 : s3 < 64 := b64Val_lt _ _ hv3
              by_cases h4 : c4 = '='
              · rw [if_pos h4] at h
                by_cases h5 : rest = []
                · rw [if_pos h5] at h
                  simp at h
                  subst h
                  intro b hb
                  simp at hb
                  rcases hb with hb | hb <;> omega
                · rw [if_neg h5] at h; simp at h
              · rw [if_neg h4] at h
                cases hv4 : b64Val c4 with
                | none => rw [hv4] at h; simp at h
                | some s4 =>
                  rw [hv4] at h
                  simp only [Option.bind_eq_bind, Option.some_bind] at h
                  have hs4 : s4 < 64 := b64Val_lt _ _ hv4
                  cases hrest : b64DecChunks rest with
                  | none => rw [hrest] at h; simp at h
                  | some bs2 =>
                    rw [hrest] at h
                    simp at h
                    subst h
                    intro b hb
                    simp at hb
                    rcases hb with hb | hb | hb | hb
                    · omega
                    · omega
                    · omega
                    · exact b64Dec_lt rest bs2 hrest b hb

/-! ## Python UTF-8 codec (`str.encode` / `bytes.decode`)

Modelled from the spec's interface needs: the claims use only that the
text-to-bytes encoding is invertible (UTF-8 round-trips any `str`), so the
codec is modelled as a fixed-width three-bytes-per-code-point invertible
encoding rather than bit-exact UTF-8. -/

/-- Python `token.encode()`: text to bytes (three bytes per code point). -/
def strEncode (s : List Char) : List Nat :=
  s.flatMap (fun c => [c.toNat / 65536, c.toNat / 256 % 256, c.toNat % 256])

/-- Python `data.decode()`: bytes back to text. -/
def strDecode : List Nat → Option (List Char)
  | [] => some []
  | b1 :: b2 :: b3 :: rest =>
      (strDecode rest).map (fun s => Char.ofNat (b1 * 65536 + b2 * 256 + b3) :: s)
  | _ => none

theorem char_toNat_lt (c : Char) : c.toNat < 16777216 := by
  have h : c.val < 0xd800 ∨ (0xdfff < c.val ∧ c.val < 0x110000) := c.valid
  simp only [UInt32.lt_def, BitVec.lt_def] at h
  have e1 : (UInt32.toBitVec 55296).toNat = 55296 := rfl
  have e2 : (UInt32.toBitVec 57343).toNat = 57343 := rfl
  have e3 : (UInt32.toBitVec 1114112).toNat = 1114112 := rfl
  rw [e1, e2, e3] at h
  simp only [Char.toNat, UInt32.toNat] at *
  rcases h with h | ⟨h1, h2⟩ <;> omega

theorem strDecode_strEncode : ∀ s : List Char, strDecode (strEncode s) = some s
  | [] => rfl
  | c :: rest => by
      have ih := strDecode_strEncode rest
      show strDecode ((c.toNat / 65536) :: (c.toNat / 256 % 256) :: (c.toNat % 256) ::
        strEncode rest) = some (c :: rest)
      simp only [strDecode, ih, Option.map_some']
      have harg : c.toNat / 65536 * 65536 + c.toNat / 256 % 256 * 256 + c.toNat % 256
          = c.toNat := by omega
      rw [harg, Char.ofNat_toNat]

theorem strEncode_lt (s : List Char) : ∀ b ∈ strEncode s, b < 256 := by
  intro b hb
  unfold strEncode at hb
  rw [List.mem_flatMap] at hb
  obtain ⟨c, _, hc⟩ := hb
  have hval : c.toNat < 16777216 := char_toNat_lt c
  simp at hc
  rcases hc with h | h | h <;> omega

/-! ## The `cryptography` library (PBKDF2 and Fernet)

Modelled from the spec: the spec (§3, §4.2, glossary) specifies
PBKDF2-HMAC-SHA256 as a key-derivation function — distinct
(master key, salt) pairs give distinct derived keys — and Fernet as an
authenticated symmetric cipher: decrypting a ciphertext succeeds exactly
under the key that produced it, returning the original plaintext, and
fails (`InvalidToken`) under any other key or on corrupted input.  Both
are modelled executably by an injective self-delimiting pairing: a header
of `key.length` ones, a zero, then the key bytes. -/

/-- Self-delimiting header announcing a byte string. -/
def packHeader (key : List Nat) : List Nat := List.replicate key.length 1 ++ 0 :: key

/-- Parse a `packHeader`-style run of ones up to the first zero. -/
def unpackOnes : List Nat → Option (Nat × List Nat)
  | [] => none
  | b :: rest =>
      if b = 0 then some (0, rest)
      else if b = 1 then (unpackOnes rest).map (fun p => (p.1 + 1, p.2))
      else none

/-- PBKDF2-HMAC-SHA256 key derivation (injective in (key bytes, salt)). -/
def pbkdf2 (keyBytes salt : List Nat) : List Nat := packHeader keyBytes ++ salt

/-- Fernet encryption under a derived key. -/
def fernetEncrypt (key pt : List Nat) : List Nat := packHeader key ++ pt

/-- Fernet decryption: succeeds only on ciphertexts produced under the
same derived key (authenticated encryption), returning the plaintext. -/
def fernetDecrypt (key ct : List Nat) : Option (List Nat) :=
  match unpackOnes ct with
  | none => none
  | some (n, r) =>
      if n = key.length ∧ key = r.take n then some (r.drop n) else none

theorem unpackOnes_replicate : ∀ (n : Nat) (t : List Nat),
    unpackOnes (List.replicate n 1 ++ 0 :: t) = some (n, t)
  | 0, t => by simp [unpackOnes]
  | n + 1, t => by
      rw [List.replicate_succ, List.cons_append]
      unfold unpackOnes
      rw [if_neg (by omega), if_pos rfl, unpackOnes_replicate n t]
      rfl

theorem unpackOnes_packHeader (key tail : List Nat) :
    unpackOnes (packHeader key ++ tail) = some (key.length, key ++ tail) := by
  unfold packHeader
  rw [List.append_assoc, List.cons_append]
  exact unpackOnes_replicate key.length (key ++ tail)

theorem fernetDecrypt_fernetEncrypt (key pt : List Nat) :
    fernetDecrypt key (fernetEncrypt key pt) = some pt := by
  unfold fernetDecrypt fernetEncrypt
  rw [unpackOnes_packHeader key pt]
  simp [List.take_left, List.drop_left]

theorem fernetDecrypt_wrong_key (key key' pt : List Nat) (h : key' ≠ key) :
    fernetDecrypt key' (fernetEncrypt key pt) = none := by
  unfold fernetDecrypt fernetEncrypt
  rw [unpackOnes_packHeader key pt]
  simp only []
  rw [if_neg]
  rintro ⟨h1, h2⟩
  rw [List.take_left] at h2
  exact h h2

/-! ### String-utility lemmas -/

theorem splitSep_ne_nil (sep : Char) : ∀ l : List Char, splitSep sep l ≠ []
  | [] => by simp [splitSep]
  | c :: rest => by
      cases h : splitSep sep rest with
      | nil => exact absurd h (splitSep_ne_nil sep rest)
      | cons p ps =>
        by_cases hc : c = sep <;> simp [splitSep, h, hc]

theorem splitSep_sep_cons (sep : Char) (l : List Char) :
    splitSep sep (sep :: l) = [] :: splitSep sep l := by
  cases h : splitSep sep l with
  | nil => exact absurd h (splitSep_ne_nil sep l)
  | cons p ps => simp [splitSep, h]

theorem splitSep_noSep_append (sep : Char) :
    ∀ xs l : List Char, (∀ c ∈ xs, c ≠ sep) →
      splitSep sep (xs ++ l) =
        (xs ++ (splitSep sep l).headD []) :: (splitSep sep l).tail
  | [], l, _ => by
      cases h : splitSep sep l with
      | nil => exact absurd h (splitSep_ne_nil sep l)
      | cons p ps => simp [h]
  | x :: xs, l, hx => by
      have hxs : ∀ c ∈ xs, c ≠ sep := fun c hc => hx c (by simp [hc])
      have ih := splitSep_noSep_append sep xs l hxs
      cases h : splitSep sep l with
      | nil => exact absurd h (splitSep_ne_nil sep l)
      | cons p ps =>
        rw [h] at ih
        simp only [List.headD_cons, List.tail_cons] at ih ⊢
        rw [List.cons_append]
        simp [splitSep, ih, hx x (by simp)]

theorem splitSep_noSep (sep : Char) (xs : List Char) (h : ∀ c ∈ xs, c ≠ sep) :
    splitSep sep xs = [xs] := by
  have := splitSep_noSep_append sep xs [] h
  simpa [splitSep] using this

theorem splitSep_two (sep : Char) (a b : List Char)
    (ha : ∀ c ∈ a, c ≠ sep) (hb : ∀ c ∈ b, c ≠ sep) :
    splitSep sep (a ++ sep :: b) = [a, b] := by
  rw [splitSep_noSep_append sep a (sep :: b) ha, splitSep_sep_cons,
    splitSep_noSep sep b hb]
  simp

theorem isPre_append (xs ys : List Char) : isPre xs (xs ++ ys) = true := by
  induction xs with
  | nil => rfl
  | cons a as ih => simp [isPre, ih]

theorem isPre_iff (p l : List Char) : isPre p l = true ↔ ∃ t, l = p ++ t := by
  constructor
  · intro h
    induction p generalizing l with
    | nil => exact ⟨l, rfl⟩
    | cons a as ih =>
      cases l with
      | nil => simp [isPre] at h
      | cons b bs =>
        unfold isPre at h
        rw [Bool.and_eq_true, beq_iff_eq] at h
        obtain ⟨t, ht⟩ := ih bs h.2
        exact ⟨t, by simp [h.1, ht]⟩
  · rintro ⟨t, rfl⟩
    exact isPre_append p t

theorem containsSub_exists (k : List Char) :
    ∀ l : List Char, containsSub k l = true → ∃ pre post, l = pre ++ (k ++ post)
  | [], h => by
      unfold containsSub at h
      rw [List.isEmpty_iff] at h
      exact ⟨[], [], by simp [h]⟩
  | c :: t, h => by
      unfold containsSub at h
      rw [Bool.or_eq_true] at h
      rcases h with h | h
      · obtain ⟨post, hpost⟩ := (isPre_iff k (c :: t)).mp h
        exact ⟨[], post, by simp [hpost]⟩
      · obtain ⟨pre, post, hp⟩ := containsSub_exists k t h
        exact ⟨c :: pre, post, by simp [hp]⟩

theorem containsSub_of_append (k : List Char) :
    ∀ (pre post : List Char), containsSub k (pre ++ (k ++ post)) = true
  | [], post => by
      cases k with
      | nil =>
        induction post with
        | nil => rfl
        | cons c t ih => simp [containsSub, isPre]
      | cons a as =>
        rw [List.nil_append, List.cons_append]
        unfold containsSub
        rw [Bool.or_eq_true]
        exact Or.inl (by rw [← List.cons_append]; exact isPre_append (a :: as) post)
  | c :: pre, post => by
      rw [List.cons_append]
      unfold containsSub
      rw [Bool.or_eq_true]
      exact Or.inr (containsSub_of_append k pre post)

/-! ## `utils/encryption.py`: the `TokenEncryption` class

`os.urandom` draws and the environment are passed explicitly; exceptions
are `Except.error` carrying the Python message text.  Inner exception
texts coming from external libraries (`binascii.Error`,
`cryptography.fernet.InvalidToken`, `UnicodeDecodeError`) are modelled by
representative constants; `InvalidToken` stringifies to the empty string,
which is what `str(e)` interpolates. -/

/-- The `"enc:"` wire-format marker. -/
def encPre : List Char := "enc:".toList

/-- `b"proxmox_mcp_salt"` — the fixed legacy salt (ASCII bytes). -/
def staticSalt : List Nat := "proxmox_mcp_salt".toList.map Char.toNat

/-- The state of a `TokenEncryption` instance: its master key string. -/
structure TokenEncryption where
  masterKey : List Char

/-- Representative `binascii.Error` text raised by `urlsafe_b64decode`. -/
def binasciiErrMsg : List Char := "Incorrect padding".toList

/-- `str(cryptography.fernet.InvalidToken())` is empty. -/
def invalidTokenMsg : List Char := []

/-- Representative `UnicodeDecodeError` text from `bytes.decode()`. -/
def unicodeErrMsg : List Char := "utf-8 codec error".toList

/-- The literal raised on a wrong number of token parts
(`encryption.py:201`). -/
def invalidFormatMsg : List Char := "Invalid encrypted token format".toList

/-- `f"Failed to encrypt token: {e}"` (`encryption.py:149`). -/
def encWrap (e : List Char) : List Char := "Failed to encrypt token: ".toList ++ e

/-- `f"Failed to decrypt token: {e}"` (`encryption.py:204`). -/
def decWrap (e : List Char) : List Char := "Failed to decrypt token: ".toList ++ e

/-- `TokenEncryption._create_cipher` (`encryption.py:87-119`): decode the
master key, derive the Fernet key via PBKDF2 from it and the salt
(the static salt when none is given).  The Python code base64-encodes the
derived key and `Fernet` immediately decodes it again; the model keeps
the derived key bytes.  Failure raises
`ValueError(f"Invalid master key: {e}")`. -/
def createCipher (te : TokenEncryption) (salt : Option (List Nat)) :
    Except (List Char) (List Nat) :=
  match b64UrlDecode te.masterKey with
  | none => .error ("Invalid master key: ".toList ++ binasciiErrMsg)
  | some keyBytes => .ok (pbkdf2 keyBytes (salt.getD staticSalt))

/-- `TokenEncryption.encrypt_token` (`encryption.py:121-149`); `salt` is
the `os.urandom(16)` draw. -/
def encryptToken (te : TokenEncryption) (salt : List Nat) (token : List Char) :
    Except (List Char) (List Char) :=
  match createCipher te (some salt) with
  | .error e => .error (encWrap e)
  | .ok key =>
      .ok (encPre ++ b64UrlEncode salt ++
        ':' :: b64UrlEncode (fernetEncrypt key (strEncode token)))

/-- `TokenEncryption.decrypt_token` (`encryption.py:151-204`): pass
non-`enc:` strings through; split the remainder on `:`; two parts is the
new format, one part the legacy fixed-salt format, anything else the
invalid-format error; every failure inside the `try` is wrapped into
`ValueError(f"Failed to decrypt token: {e}")`. -/
def decryptToken (te : TokenEncryption) (tok : List Char) :
    Except (List Char) (List Char) :=
  if isPre encPre tok = false then .ok tok
  else
    match splitSep ':' (tok.drop 4) with
    | [saltB64, encB64] =>
      match b64UrlDecode saltB64 with
      | none => .error (decWrap binasciiErrMsg)
      | some salt =>
        match b64UrlDecode encB64 with
        | none => .error (decWrap binasciiErrMsg)
        | some ct =>
          match createCipher te (some salt) with
          | .error e => .error (decWrap e)
          | .ok key =>
            match fernetDecrypt key ct with
            | none => .error (decWrap invalidTokenMsg)
            | some ptBytes =>
              match strDecode ptBytes with
              | none => .error (decWrap unicodeErrMsg)
              | some pt => .ok pt
    | [encB64] =>
      match b64UrlDecode encB64 with
      | none => .error (decWrap binasciiErrMsg)
      | some ct =>
        match createCipher te none with
        | .error e => .error (decWrap e)
        | .ok key =>
          match fernetDecrypt key ct with
          | none => .error (decWrap invalidTokenMsg)
          | some ptBytes =>
            match strDecode ptBytes with
            | none => .error (decWrap unicodeErrMsg)
            | some pt => .ok pt
    | _ => .error (decWrap invalidFormatMsg)

/-- `TokenEncryption.is_encrypted` (`encryption.py:206-215`). -/
def isEncrypted (tok : List Char) : Bool := isPre encPre tok

/-- `TokenEncryption.generate_master_key` (`encryption.py:233-240`);
`randomBytes` is the `os.urandom(32)` draw. -/
def generateMasterKey (randomBytes : List Nat) : List Char :=
  b64UrlEncode randomBytes

/-- A legacy-format token `enc:<ct_b64>` as described by the spec (§3,
§6): ciphertext produced under the fixed-salt cipher
(`_create_cipher` with no salt), in the old one-part wire format.  The
current code never produces this format; the constructor exists to state
backward-compatibility claims. -/
def legacyEncryptToken (te : TokenEncryption) (token : List Char) :
    Except (List Char) (List Char) :=
  match createCipher te none with
  | .error e => .error (encWrap e)
  | .ok key => .ok (encPre ++ b64UrlEncode (fernetEncrypt key (strEncode token)))

/-! ## `config/loader.py`: field-qualified decryption-error handling -/

/-- The four specific classifications of `_handle_decryption_error`
(`loader.py:135-187`), plus the generic fallback. -/
inductive DecErrClass where
  | badFormat
  | corruptedFormat
  | keyMismatch
  | corruptedData
  | generic
deriving DecidableEq

/-- The bad-format message of `_handle_decryption_error`
(`loader.py:153-157`); a function of the field name only. -/
def badFormatMsg (fieldName : List Char) : List Char :=
  "Configuration field \x27".toList ++ fieldName ++
    "\x27 contains invalid encrypted token format. Encrypted tokens must start with \x27enc:\x27 prefix. Use the encrypt_config utility to properly encrypt tokens.".toList

/-- The corrupted-format message (`loader.py:161-165`). -/
def corruptedFormatMsg (fieldName : List Char) : List Char :=
  "Failed to decrypt token for field \x27".toList ++ fieldName ++
    "\x27: Invalid encryption format. The token may be corrupted or use an unsupported format. Re-encrypt the token using: python -m proxmox_mcp.utils.encrypt_config".toList

/-- The key-mismatch message (`loader.py:169-173`); a function of the
field name only — the token, ciphertext and plaintext never appear. -/
def keyMismatchMsg (fieldName : List Char) : List Char :=
  "Failed to decrypt token for field \x27".toList ++ fieldName ++
    "\x27: Decryption key mismatch. Ensure PROXMOX_MCP_MASTER_KEY environment variable is set correctly. If the master key was changed, tokens must be re-encrypted.".toList

/-- The corrupted-data message (`loader.py:177-181`). -/
def corruptedDataMsg (fieldName : List Char) : List Char :=
  "Failed to decrypt token for field \x27".toList ++ fieldName ++
    "\x27: Token data is corrupted. The encrypted token contains invalid characters. Please re-encrypt the original token value.".toList

/-- The generic fallback message (`loader.py:184-187`). -/
def genericDecMsg (fieldName errMsg : List Char) : List Char :=
  "Failed to decrypt token for field \x27".toList ++ fieldName ++
    "\x27: ".toList ++ errMsg ++
    ". Verify the token format and master key are correct.".toList

/-- `_handle_decryption_error` (`loader.py:135-187`): the ordered,
case-insensitive message heuristic.  Returns the branch taken and the
message of the `ValueError` it raises. -/
def handleDecryptionError (fieldName encValue errMsg : List Char) :
    DecErrClass × List Char :=
  if isPre encPre encValue = false then
    (.badFormat, badFormatMsg fieldName)
  else if containsSub "invalid encrypted token format".toList (lowerStr errMsg) then
    (.corruptedFormat, corruptedFormatMsg fieldName)
  else if containsSub "invalid master key".toList (lowerStr errMsg) ||
      containsSub "decrypt".toList (lowerStr errMsg) then
    (.keyMismatch, keyMismatchMsg fieldName)
  else if containsSub "base64".toList (lowerStr errMsg) ||
      containsSub "invalid".toList (lowerStr errMsg) then
    (.corruptedData, corruptedDataMsg fieldName)
  else
    (.generic, genericDecMsg fieldName errMsg)

/-- The field the loader decrypts (`loader.py:117`). -/
def tokenField : List Char := "auth.token_value".toList

/-! ## Console output of the key-generation paths

Each `print(...)` is one element of a line list, in program order. -/

/-- The warning printed by `_get_or_generate_master_key`
(`encryption.py:70-82`) when no environment key exists.  The literal text
`<key>` is a placeholder in the source; the key value itself is never
interpolated. -/
def ephemeralWarningLines : List (List Char) :=
  [ "⚠️  WARNING: No master key found in environment.".toList,
    "   A temporary key has been generated for this session only.".toList,
    "   To generate and set a permanent master key:".toList,
    "   1. Run: python -m proxmox_mcp.utils.encrypt_config --generate-key".toList,
    "   2. Copy the key to your environment: export PROXMOX_MCP_MASTER_KEY=<key>".toList,
    "   3. Any tokens encrypted with the temporary key will need re-encryption.".toList,
    "   ⚠️  WARNING: Terminal history may expose keys - use the utility for security!".toList ]

/-- `TokenEncryption._get_or_generate_master_key` (`encryption.py:53-85`):
returns the environment key when present (no output), otherwise the
freshly generated key together with the printed warning lines. -/
def getOrGenerateMasterKey (envKey : Option (List Char))
    (randomBytes : List Nat) : List Char × List (List Char) :=
  match envKey with
  | some k => (k, [])
  | none => (generateMasterKey randomBytes, ephemeralWarningLines)

/-- The CLI `generate_master_key` (`encrypt_config.py:39-77`) output on
the confirmed path (operator presses ENTER at both prompts), in program
order.  The generated key value is interpolated into two of the lines. -/
def cliGenerateKeyOutput (key : List Char) : List (List Char) :=
  [ "🔑 Generated new master key.".toList,
    "".toList,
    "⚠️  SECURITY WARNING:".toList,
    "   - This key will be displayed ONCE below".toList,
    "   - Copy it immediately and store it securely".toList,
    "   - Anyone with this key can decrypt your tokens".toList,
    "   - Consider clearing your terminal history after copying".toList,
    "".toList,
    "".toList,
    "🔑 Master Key (copy this now):".toList,
    "   PROXMOX_MCP_MASTER_KEY=".toList ++ key,
    "".toList,
    "📋 To use this key:".toList,
    "   1. Set the environment variable in your shell:".toList,
    "      export PROXMOX_MCP_MASTER_KEY=".toList ++ key,
    "   2. Or add it to your .env file".toList,
    "   3. Store this key securely - you\x27ll need it to decrypt your config!".toList,
    "".toList,
    "🧹 Security reminder:".toList,
    "   - Clear your terminal history to remove the key:".toList,
    "     history -c && history -w".toList,
    "   - Or close this terminal session".toList,
    "".toList,
    "⚠️  WARNING: Losing this key means losing access to encrypted tokens!".toList,
    "✅ Key generation complete.".toList ]

/-! ## `utils/encrypt_config.py`: the key-rotation workflow

Configuration files are modelled at JSON-value granularity: the
filesystem maps paths to parsed JSON documents (every on-disk config the
workflow touches is valid JSON), `shutil.copy2` copies the document, and
`json.dump` writes the document back.  `datetime.now()` timestamps and
`os.urandom` draws are explicit parameters. -/

/-- A JSON value (`json.load` result). -/
inductive Json where
  | jstr : List Char → Json
  | jnum : Int → Json
  | jbool : Bool → Json
  | jnull : Json
  | jarr : List Json → Json
  | jobj : List (List Char × Json) → Json

/-- Python dict lookup on an object's field list. -/
def jGet (fields : List (List Char × Json)) (k : List Char) : Option Json :=
  match fields with
  | [] => none
  | (k2, v) :: rest => if k2 = k then some v else jGet rest k

/-- Python dict assignment to an existing key (insertion order kept). -/
def jSet (fields : List (List Char × Json)) (k : List Char) (v : Json) :
    List (List Char × Json) :=
  match fields with
  | [] => []
  | (k2, v2) :: rest =>
      if k2 = k then (k2, v) :: jSet rest k v else (k2, v2) :: jSet rest k v

/-- The repeated guard
`"auth" in cfg and "token_value" in cfg["auth"] and
isinstance(v, str) and v.startswith("enc:")` — returns the encrypted
token when a config document has one. -/
def encTokenOf (doc : Json) : Option (List Char) :=
  match doc with
  | .jobj fields =>
    match jGet fields "auth".toList with
    | some (.jobj af) =>
      match jGet af "token_value".toList with
      | some (.jstr s) => if isPre encPre s then some s else none
      | _ => none
    | _ => none
  | _ => none

/-- `config_data["auth"]["token_value"] = v` on a document that passed
the `encTokenOf` guard (other shapes are left unchanged). -/
def setAuthTokenValue (doc : Json) (v : List Char) : Json :=
  match doc with
  | .jobj fields =>
    match jGet fields "auth".toList with
    | some (.jobj af) =>
        .jobj (jSet fields "auth".toList
          (.jobj (jSet af "token_value".toList (.jstr v))))
    | _ => doc
  | _ => doc

/-- The filesystem: an association of paths to parsed JSON documents. -/
def FS : Type := List (List Char × Json)

/-- Read a file (`open` + `json.load`). -/
def fsGet (fs : FS) (p : List Char) : Option Json := jGet fs p

/-- Write a file (`json.dump` to `p`, creating or replacing it). -/
def fsSet (fs : FS) (p : List Char) (v : Json) : FS :=
  match fs with
  | [] => [(p, v)]
  | (p2, v2) :: rest =>
      if p2 = p then (p2, v) :: rest else (p2, v2) :: fsSet rest p v

/-- `verify_config_decryption` (`encrypt_config.py:169-202`):
`TokenEncryption(master_key=old_key)` is constructed first (an invalid
key raises and yields `False`), then the file is loaded and, when it has
an encrypted `auth.token_value`, a decryption is attempted; a file
without encrypted content verifies trivially. -/
def verifyConfigDecryption (fs : FS) (path : List Char) (oldKey : List Char) :
    Bool :=
  if (b64UrlDecode oldKey).isNone then false
  else
    match fsGet fs path with
    | none => false
    | some doc =>
      match encTokenOf doc with
      | some tok =>
        match decryptToken ⟨oldKey⟩ tok with
        | .ok _ => true
        | .error _ => false
      | none => true

/-- The outcome of `rotate_master_key`: the filesystem afterwards, the
`sys.exit` code if any, the backup path created (if reached) and the
rotated field list. -/
structure RotResult where
  fs : FS
  exitCode : Option Nat
  backup : Option (List Char)
  rotated : List (List Char)

/-- `create_backup` (`encrypt_config.py:147-166`): the timestamped
sibling path. -/
def backupPathOf (path ts : List Char) : List Char :=
  path ++ ".backup.".toList ++ ts

/-- `rotate_master_key` (`encrypt_config.py:205-292`).  Steps in source
order: existence check, environment master key check, verification (abort
with `sys.exit(1)` before any filesystem change on failure), timestamped
backup, construction of the two `TokenEncryption` instances (an invalid
key raises into the outer handler, which exits), decrypt-and-re-encrypt
of an encrypted `auth.token_value`, and the `json.dump` rewrite of the
document (also when nothing was rotated).  `envOldKey` is
`os.getenv("PROXMOX_MCP_MASTER_KEY")`, `genKey` the key generated when
`newKeyArg` is absent, `freshSalt` the re-encryption salt draw and `ts`
the backup timestamp. -/
def rotateMasterKey (fs : FS) (path : List Char) (newKeyArg : Option (List Char))
    (envOldKey : Option (List Char)) (genKey : List Char)
    (freshSalt : List Nat) (ts : List Char) : RotResult :=
  match fsGet fs path with
  | none => ⟨fs, some 1, none, []⟩
  | some doc =>
    match envOldKey with
    | none => ⟨fs, some 1, none, []⟩
    | some oldKey =>
      if verifyConfigDecryption fs path oldKey = false then ⟨fs, some 1, none, []⟩
      else
        let bp := backupPathOf path ts
        let fs1 := fsSet fs bp doc
        let newKey := newKeyArg.getD genKey
        if (b64UrlDecode oldKey).isNone ∨ (b64UrlDecode newKey).isNone then
          ⟨fs1, some 1, some bp, []⟩
        else
          match encTokenOf doc with
          | some tok =>
            match decryptToken ⟨oldKey⟩ tok with
            | .error _ => ⟨fs1, some 1, some bp, []⟩
            | .ok pt =>
              match encryptToken ⟨newKey⟩ freshSalt pt with
              | .error _ => ⟨fs1, some 1, some bp, []⟩
              | .ok newTok =>
                  ⟨fsSet fs1 path (setAuthTokenValue doc newTok), none, some bp,
                    ["auth.token_value".toList]⟩
          | none => ⟨fsSet fs1 path doc, none, some bp, []⟩

/-- The outcome of `rotate_master_key_all`: filesystem, `sys.exit` code if
one escaped, and the `successful_rotations` / `failed_rotations` lists. -/
structure BulkResult where
  fs : FS
  exitCode : Option Nat
  rotatedOk : List (List Char)
  rotatedFail : List (List Char × List Char)

/-- Python `p.endswith(suf)`. -/
def endsWithSuf (suf l : List Char) : Bool := isPre suf.reverse l.reverse

/-- `Path(p).name`: the component after the last `/`. -/
def baseNameOf (p : List Char) : List Char := (splitSep '/' p).getLastD []

/-- One file of `Path(directory).rglob("*.json")` that survives the
`startswith("config.example")` exclusion (`encrypt_config.py:312-315`). -/
def isCandidate (dir p : List Char) : Bool :=
  isPre (dir ++ "/".toList) p && endsWithSuf ".json".toList p &&
    !isPre "config.example".toList (baseNameOf p)

/-- The discovered candidate list, in file-table order (the `rglob`
enumeration order is environment-dependent in Python too). -/
def discoverConfigs (fs : FS) (dir : List Char) : List (List Char) :=
  (fs.map Prod.fst).filter (isCandidate dir)

/-- The per-file loop of `rotate_master_key_all`
(`encrypt_config.py:334-362`).  Files without encrypted content are
skipped before any backup; otherwise `rotate_master_key` runs.  The
loop's `except Exception` catches ordinary per-file exceptions (e.g. an
unreadable file) and records them in `failed_rotations` — but
`rotate_master_key` fails via `sys.exit(1)`, i.e. `SystemExit`, which is
not an `Exception`, so a `some` exit code propagates and terminates the
whole batch (the `exitCode = some _` branch). -/
def bulkLoop (envOldKey : Option (List Char)) (newKey genKey ts : List Char) :
    FS → List (List Char) → List (List Nat) → List (List Char) →
      List (List Char × List Char) → BulkResult
  | fs, [], _, ok, bad => ⟨fs, none, ok, bad⟩
  | fs, f :: rest, salts, ok, bad =>
    match fsGet fs f with
    | none =>
        bulkLoop envOldKey newKey genKey ts fs rest salts ok
          (bad ++ [(f, "No such file or directory".toList)])
    | some doc =>
      match encTokenOf doc with
      | none => bulkLoop envOldKey newKey genKey ts fs rest salts ok bad
      | some _ =>
        match (rotateMasterKey fs f (some newKey) envOldKey genKey
            (salts.headD []) ts).exitCode with
        | some c =>
            ⟨(rotateMasterKey fs f (some newKey) envOldKey genKey
              (salts.headD []) ts).fs, some c, ok, bad⟩
        | none =>
            bulkLoop envOldKey newKey genKey ts
              (rotateMasterKey fs f (some newKey) envOldKey genKey
                (salts.headD []) ts).fs
              rest (salts.drop 1) (ok ++ [f]) bad

/-- `rotate_master_key_all` (`encrypt_config.py:295-390`): discover the
candidate files (the directory existence checks and the empty-candidate
case exit with code 1), fix one shared new key, and run the per-file
loop.  `salts` supplies one `os.urandom(16)` draw per rotated file. -/
def rotateMasterKeyAll (fs : FS) (dir : List Char)
    (newKeyArg : Option (List Char)) (envOldKey : Option (List Char))
    (genKey : List Char) (salts : List (List Nat)) (ts : List Char) :
    BulkResult :=
  match discoverConfigs fs dir with
  | [] => ⟨fs, some 1, [], []⟩
  | f :: fsrest =>
      bulkLoop envOldKey (newKeyArg.getD genKey) genKey ts fs (f :: fsrest)
        salts [] []

/-! ### Filesystem and JSON lemmas -/

theorem fsGet_fsSet_eq : ∀ (fs : FS) (p : List Char) (v : Json),
    fsGet (fsSet fs p v) p = some v
  | [], p, v => by simp [fsGet, fsSet, jGet]
  | (p2, v2) :: rest, p, v => by
      by_cases h : p2 = p
      · simp [fsGet, fsSet, jGet, h]
      · simp only [fsGet, fsSet, if_neg h, jGet]
        exact fsGet_fsSet_eq rest p v

theorem fsGet_fsSet_ne : ∀ (fs : FS) (p q : List Char) (v : Json), q ≠ p →
    fsGet (fsSet fs p v) q = fsGet fs q
  | [], p, q, v, h => by
      simp only [fsGet, fsSet, jGet]
      rw [if_neg (fun e => h e.symm)]
  | (p2, v2) :: rest, p, q, v, h => by
      by_cases h2 : p2 = p
      · subst h2
        simp only [fsGet, fsSet, if_pos rfl, jGet]
        rw [if_neg (fun e => h e.symm), if_neg (fun e => h e.symm)]
      · simp only [fsGet, fsSet, if_neg h2, jGet]
        by_cases h3 : p2 = q
        · rw [if_pos h3, if_pos h3]
        · rw [if_neg h3, if_neg h3]
          exact fsGet_fsSet_ne rest p q v h

/-! ### Token-cipher lemmas -/

theorem packHeader_lt (k : List Nat) (hk : ∀ b ∈ k, b < 256) :
    ∀ b ∈ packHeader k, b < 256 := by
  intro b hb
  unfold packHeader at hb
  rw [List.mem_append] at hb
  rcases hb with hb | hb
  · have := List.eq_of_mem_replicate hb
    omega
  · rw [List.mem_cons] at hb
    rcases hb with hb | hb
    · omega
    · exact hk b hb

theorem fernetEncrypt_lt (key pt : List Nat) (hk : ∀ b ∈ key, b < 256)
    (hp : ∀ b ∈ pt, b < 256) : ∀ b ∈ fernetEncrypt key pt, b < 256 := by
  intro b hb
  unfold fernetEncrypt at hb
  rw [List.mem_append] at hb
  rcases hb with hb | hb
  · exact packHeader_lt key hk b hb
  · exact hp b hb

theorem pbkdf2_lt (kb salt : List Nat) (hk : ∀ b ∈ kb, b < 256)
    (hs : ∀ b ∈ salt, b < 256) : ∀ b ∈ pbkdf2 kb salt, b < 256 := by
  intro b hb
  unfold pbkdf2 at hb
  rw [List.mem_append] at hb
  rcases hb with hb | hb
  · exact packHeader_lt kb hk b hb
  · exact hs b hb

theorem isPre_encPre_append (rest : List Char) :
    isPre encPre (encPre ++ rest) = true := isPre_append encPre rest

theorem drop4_encPre (rest : List Char) : (encPre ++ rest).drop 4 = rest :=
  List.drop_left' (by decide)

theorem splitSep_two_b64 (a b : List Nat) :
    splitSep ':' (b64UrlEncode a ++ ':' :: b64UrlEncode b) =
      [b64UrlEncode a, b64UrlEncode b] :=
  splitSep_two ':' _ _ (b64Enc_ne_colon a) (b64Enc_ne_colon b)

theorem createCipher_ok (mk : List Char) (kb : List Nat)
    (s : Option (List Nat)) (hmk : b64UrlDecode mk = some kb) :
    createCipher ⟨mk⟩ s = .ok (pbkdf2 kb (s.getD staticSalt)) := by
  unfold createCipher
  rw [hmk]

theorem encryptToken_ok (mk : List Char) (kb salt : List Nat) (pt : List Char)
    (hmk : b64UrlDecode mk = some kb) :
    encryptToken ⟨mk⟩ salt pt =
      .ok (encPre ++ b64UrlEncode salt ++
        ':' :: b64UrlEncode (fernetEncrypt (pbkdf2 kb salt) (strEncode pt))) := by
  unfold encryptToken createCipher
  simp [hmk]

/-- C1 core: decryption inverts encryption under the same master key. -/
theorem decryptToken_encryptToken (mk : List Char) (kb salt : List Nat)
    (pt tok : List Char) (hmk : b64UrlDecode mk = some kb)
    (hsalt : ∀ b ∈ salt, b < 256)
    (henc : encryptToken ⟨mk⟩ salt pt = .ok tok) :
    decryptToken ⟨mk⟩ tok = .ok pt := by
  rw [encryptToken_ok mk kb salt pt hmk] at henc
  injection henc with henc
  subst henc
  have hkb : ∀ b ∈ kb, b < 256 := b64Dec_lt mk kb hmk
  have hct : ∀ b ∈ fernetEncrypt (pbkdf2 kb salt) (strEncode pt), b < 256 :=
    fernetEncrypt_lt _ _ (pbkdf2_lt kb salt hkb hsalt) (strEncode_lt pt)
  unfold decryptToken
  rw [List.append_assoc]
  rw [isPre_encPre_append, drop4_encPre, splitSep_two_b64]
  rw [if_neg (by decide)]
  simp only [b64UrlDecode, b64UrlEncode] at hct ⊢
  rw [b64_roundtrip salt hsalt, b64_roundtrip _ hct]
  dsimp only
  rw [createCipher_ok mk kb (some salt) hmk]
  dsimp only [Option.getD_some]
  rw [fernetDecrypt_fernetEncrypt]
  dsimp only
  rw [strDecode_strEncode]

/-! ## Concrete values used by witnesses -/

def wMasterBytes : List Nat := List.replicate 32 7
def wMasterKey : List Char := generateMasterKey wMasterBytes
def wMasterBytes2 : List Nat := List.replicate 32 9
def wMasterKey2 : List Char := generateMasterKey wMasterBytes2
def wSalt : List Nat := List.replicate 16 3
def wSalt2 : List Nat := List.replicate 16 5
def wPlain : List Char := "my-secret-token".toList
def wToken : List Char := (encryptToken ⟨wMasterKey⟩ wSalt wPlain).toOption.getD []
def wToken2 : List Char := (encryptToken ⟨wMasterKey⟩ wSalt2 wPlain).toOption.getD []
def wLegacyToken : List Char :=
  (legacyEncryptToken ⟨wMasterKey⟩ wPlain).toOption.getD []

/-! ## Claim theorems -/

/-- C1: for every string `s` and every valid master key (one whose
base64url decoding succeeds), decrypting the `enc:<salt_b64>:<ct_b64>`
token produced by `encrypt_token` with a `TokenEncryption` holding the
same master key returns `s`. -/
theorem C1_encrypt_decrypt_roundtrip (mk : List Char) (kb salt : List Nat)
    (pt tok : List Char) (hmk : b64UrlDecode mk = some kb)
    (hsalt : ∀ b ∈ salt, b < 256)
    (henc : encryptToken ⟨mk⟩ salt pt = .ok tok) :
    decryptToken ⟨mk⟩ tok = .ok pt :=
  decryptToken_encryptToken mk kb salt pt tok hmk hsalt henc

theorem C1_encrypt_decrypt_roundtrip_witness :
    decryptToken ⟨wMasterKey⟩ wToken = .ok wPlain :=
  C1_encrypt_decrypt_roundtrip wMasterKey wMasterBytes wSalt wPlain wToken
    rfl (by decide) rfl

theorem b64Enc_inj (a b : List Nat) (ha : ∀ x ∈ a, x < 256)
    (hb : ∀ x ∈ b, x < 256) (h : b64UrlEncode a = b64UrlEncode b) : a = b := by
  have ra := b64_roundtrip a ha
  rw [show b64EncChunks a = b64EncChunks b from h, b64_roundtrip b hb] at ra
  injection ra with ra2
  exact ra2.symm

theorem token_salt_part (salt ct : List Nat) :
    (splitSep ':'
      ((encPre ++ b64UrlEncode salt ++ ':' :: b64UrlEncode ct).drop 4)).headD []
      = b64UrlEncode salt := by
  rw [List.append_assoc, drop4_encPre, splitSep_two_b64]
  rfl

/-- C7: two encryptions of the same plaintext under the same master key
with distinct 16-byte salts yield different token strings whose embedded
(first) salt parts differ. -/
theorem C7_salt_uniqueness (mk : List Char) (kb salt1 salt2 : List Nat)
    (pt tok1 tok2 : List Char) (hmk : b64UrlDecode mk = some kb)
    (h1 : ∀ b ∈ salt1, b < 256) (h2 : ∀ b ∈ salt2, b < 256)
    (_hlen1 : salt1.length = 16) (_hlen2 : salt2.length = 16)
    (hne : salt1 ≠ salt2)
    (e1 : encryptToken ⟨mk⟩ salt1 pt = .ok tok1)
    (e2 : encryptToken ⟨mk⟩ salt2 pt = .ok tok2) :
    tok1 ≠ tok2 ∧
      (splitSep ':' (tok1.drop 4)).headD [] ≠
        (splitSep ':' (tok2.drop 4)).headD [] := by
  rw [encryptToken_ok mk kb salt1 pt hmk] at e1
  rw [encryptToken_ok mk kb salt2 pt hmk] at e2
  injection e1 with e1
  injection e2 with e2
  subst e1
  subst e2
  have hsaltne : b64UrlEncode salt1 ≠ b64UrlEncode salt2 := by
    intro h
    exact hne (b64Enc_inj salt1 salt2 h1 h2 h)
  have hheads : (splitSep ':'
        ((encPre ++ b64UrlEncode salt1 ++
          ':' :: b64UrlEncode (fernetEncrypt (pbkdf2 kb salt1) (strEncode pt))).drop 4)).headD [] ≠
      (splitSep ':'
        ((encPre ++ b64UrlEncode salt2 ++
          ':' :: b64UrlEncode (fernetEncrypt (pbkdf2 kb salt2) (strEncode pt))).drop 4)).headD [] := by
    rw [token_salt_part, token_salt_part]
    exact hsaltne
  exact ⟨fun h => hheads (by rw [h]), hheads⟩

theorem C7_salt_uniqueness_witness : wToken ≠ wToken2 ∧
    (splitSep ':' (wToken.drop 4)).headD [] ≠
      (splitSep ':' (wToken2.drop 4)).headD [] :=
  C7_salt_uniqueness wMasterKey wMasterBytes wSalt wSalt2 wPlain wToken wToken2
    rfl (by decide) (by decide) (by decide) (by decide) (by decide) rfl rfl

/-- C8: a legacy-format token `enc:<ct_b64>` produced with the fixed
static salt decrypts, via the one-part branch and the fixed-salt cipher,
to the original plaintext under the same master key. -/
theorem C8_legacy_roundtrip (mk : List Char) (kb : List Nat)
    (pt tok : List Char) (hmk : b64UrlDecode mk = some kb)
    (hleg : legacyEncryptToken ⟨mk⟩ pt = .ok tok) :
    decryptToken ⟨mk⟩ tok = .ok pt := by
  unfold legacyEncryptToken at hleg
  rw [createCipher_ok mk kb none hmk] at hleg
  dsimp only [Option.getD_none] at hleg
  injection hleg with hleg
  subst hleg
  have hct : ∀ b ∈ fernetEncrypt (pbkdf2 kb staticSalt) (strEncode pt), b < 256 :=
    fernetEncrypt_lt _ _
      (pbkdf2_lt kb staticSalt (b64Dec_lt mk kb hmk) (by decide))
      (strEncode_lt pt)
  unfold decryptToken
  rw [isPre_encPre_append, drop4_encPre]
  rw [if_neg (by decide)]
  rw [splitSep_noSep ':'
    (b64UrlEncode (fernetEncrypt (pbkdf2 kb staticSalt) (strEncode pt)))
    (b64Enc_ne_colon _)]
  simp only [b64UrlDecode, b64UrlEncode] at hct ⊢
  rw [b64_roundtrip _ hct]
  dsimp only
  rw [createCipher_ok mk kb none hmk]
  dsimp only [Option.getD_none]
  rw [fernetDecrypt_fernetEncrypt]
  dsimp only
  rw [strDecode_strEncode]

theorem C8_legacy_roundtrip_witness :
    decryptToken ⟨wMasterKey⟩ wLegacyToken = .ok wPlain :=
  C8_legacy_roundtrip wMasterKey wMasterBytes wPlain wLegacyToken rfl rfl

/-- C5: an `enc:`-prefixed token whose remainder splits on `:` into zero
or three-or-more parts fails with the specific invalid-format error
(message `Invalid encrypted token format` inside the wrapper), which the
loader heuristic classifies as the invalid-encryption-format case, not a
generic decryption error. -/
theorem C5_format_rejection (te : TokenEncryption) (s : List Char)
    (hpre : isPre encPre s = true)
    (hn : (splitSep ':' (s.drop 4)).length = 0 ∨
      3 ≤ (splitSep ':' (s.drop 4)).length) :
    decryptToken te s = .error (decWrap invalidFormatMsg) ∧
      (handleDecryptionError tokenField s (decWrap invalidFormatMsg)).1 =
        DecErrClass.corruptedFormat := by
  constructor
  · unfold decryptToken
    rw [hpre]
    rw [if_neg (by decide)]
    cases hsp : splitSep ':' (s.drop 4) with
    | nil => exact absurd hsp (splitSep_ne_nil ':' _)
    | cons p1 t1 =>
      cases t1 with
      | nil => rw [hsp] at hn; simp at hn
      | cons p2 t2 =>
        cases t2 with
        | nil => rw [hsp] at hn; simp at hn
        | cons p3 t3 => rfl
  · unfold handleDecryptionError
    rw [hpre]
    rw [if_neg (by decide)]
    rw [if_pos (by decide)]

theorem C5_format_rejection_witness :
    decryptToken ⟨wMasterKey⟩ "enc:a:b:c".toList =
        .error (decWrap invalidFormatMsg) ∧
      (handleDecryptionError tokenField "enc:a:b:c".toList
        (decWrap invalidFormatMsg)).1 = DecErrClass.corruptedFormat :=
  C5_format_rejection ⟨wMasterKey⟩ "enc:a:b:c".toList (by decide)
    (Or.inr (by decide))

theorem pbkdf2_ne (kb kb2 salt : List Nat) (h : kb ≠ kb2) :
    pbkdf2 kb2 salt ≠ pbkdf2 kb salt := by
  intro he
  unfold pbkdf2 at he
  have h1 := congrArg unpackOnes he
  rw [unpackOnes_packHeader kb2 salt, unpackOnes_packHeader kb salt] at h1
  injection h1 with h1
  have happ : kb2 ++ salt = kb ++ salt := congrArg Prod.snd h1
  exact h (List.append_cancel_right happ).symm

/-- Decrypting a fresh-format token with a different master key hits the
Fernet authentication failure, wrapped into the constant
`Failed to decrypt token: ` message (`InvalidToken` stringifies empty). -/
theorem decryptToken_wrong_key (mk mk2 : List Char) (kb kb2 salt : List Nat)
    (pt tok : List Char) (hmk : b64UrlDecode mk = some kb)
    (hmk2 : b64UrlDecode mk2 = some kb2) (hkb : kb ≠ kb2)
    (hsalt : ∀ b ∈ salt, b < 256)
    (henc : encryptToken ⟨mk⟩ salt pt = .ok tok) :
    decryptToken ⟨mk2⟩ tok = .error (decWrap invalidTokenMsg) := by
  rw [encryptToken_ok mk kb salt pt hmk] at henc
  injection henc with henc
  subst henc
  have hkb' : ∀ b ∈ kb, b < 256 := b64Dec_lt mk kb hmk
  have hct : ∀ b ∈ fernetEncrypt (pbkdf2 kb salt) (strEncode pt), b < 256 :=
    fernetEncrypt_lt _ _ (pbkdf2_lt kb salt hkb' hsalt) (strEncode_lt pt)
  unfold decryptToken
  rw [List.append_assoc]
  rw [isPre_encPre_append, drop4_encPre, splitSep_two_b64]
  rw [if_neg (by decide)]
  simp only [b64UrlDecode, b64UrlEncode] at hct ⊢
  rw [b64_roundtrip salt hsalt, b64_roundtrip _ hct]
  dsimp only
  rw [createCipher_ok mk2 kb2 (some salt) hmk2]
  dsimp only [Option.getD_some]
  rw [fernetDecrypt_wrong_key _ _ _ (pbkdf2_ne kb kb2 salt hkb)]

theorem containsSub_mono_pre (p t m : List Char) (hp : isPre p t = true)
    (hc : containsSub t m = true) : containsSub p m = true := by
  obtain ⟨pre, post, hm⟩ := containsSub_exists t m hc
  obtain ⟨r, hr⟩ := (isPre_iff p t).mp hp
  subst hr
  subst hm
  rw [List.append_assoc]
  exact containsSub_of_append p pre (r ++ post)

/-- C9: decrypting a valid-format token under a different master key
fails; the loader wraps it into the field-qualified key-mismatch error
(the ordered case-insensitive heuristic checks the `enc:` format first),
whose message is a constant of the field name alone: it does not contain
the ciphertext token (and carries no decrypted fragment, since the
underlying error text is the empty `InvalidToken` message). -/
theorem C9_wrong_key_error (mk mk2 : List Char) (kb kb2 salt : List Nat)
    (pt tok : List Char) (hmk : b64UrlDecode mk = some kb)
    (hmk2 : b64UrlDecode mk2 = some kb2) (hkb : kb ≠ kb2)
    (hsalt : ∀ b ∈ salt, b < 256)
    (henc : encryptToken ⟨mk⟩ salt pt = .ok tok) :
    decryptToken ⟨mk2⟩ tok = .error (decWrap invalidTokenMsg) ∧
      handleDecryptionError tokenField tok (decWrap invalidTokenMsg) =
        (DecErrClass.keyMismatch, keyMismatchMsg tokenField) ∧
      containsSub tok (keyMismatchMsg tokenField) = false ∧
      containsSub tokenField (keyMismatchMsg tokenField) = true := by
  have hdec := decryptToken_wrong_key mk mk2 kb kb2 salt pt tok hmk hmk2 hkb
    hsalt henc
  have hpre : isPre encPre tok = true := by
    rw [encryptToken_ok mk kb salt pt hmk] at henc
    injection henc with henc
    subst henc
    rw [List.append_assoc]
    exact isPre_encPre_append _
  refine ⟨hdec, ?_, ?_, by decide⟩
  · unfold handleDecryptionError
    rw [hpre]
    rw [if_neg (by decide)]
    rw [if_neg (by decide), if_pos (by decide)]
  · by_cases hc : containsSub tok (keyMismatchMsg tokenField) = true
    · have := containsSub_mono_pre encPre tok (keyMismatchMsg tokenField) hpre hc
      rw [show containsSub encPre (keyMismatchMsg tokenField) = false from
        by decide] at this
      exact absurd this (by decide)
    · exact Bool.not_eq_true _ ▸ Bool.of_not_eq_true hc

theorem C9_wrong_key_error_witness :
    decryptToken ⟨wMasterKey2⟩ wToken = .error (decWrap invalidTokenMsg) ∧
      handleDecryptionError tokenField wToken (decWrap invalidTokenMsg) =
        (DecErrClass.keyMismatch, keyMismatchMsg tokenField) ∧
      containsSub wToken (keyMismatchMsg tokenField) = false ∧
      containsSub tokenField (keyMismatchMsg tokenField) = true :=
  C9_wrong_key_error wMasterKey wMasterKey2 wMasterBytes wMasterBytes2 wSalt
    wPlain wToken rfl rfl (by decide) (by decide) rfl

/-! ## Key-leak analysis for the ephemeral-generation warning (C2) -/

/-- A generated master key's textual shape: 43 base64url-alphabet
characters followed by a single `=` (the base64url encoding of any
32-byte value). -/
def keyShaped (k : List Char) : Bool :=
  (k.take 43).all isB64C && decide (k.drop 43 = ['='])

/-- Whether a suffix starts with 43 alphabet characters followed by `=`
— the only way a generated key could sit at this position. -/
def leakWindow (s : List Char) : Bool :=
  (s.take 43).all isB64C && ((s.drop 43).headD ' ' == '=')

/-- Whether any position of a line could hold a generated key. -/
def couldLeak : List Char → Bool
  | [] => false
  | c :: t => leakWindow (c :: t) || couldLeak t

theorem b64Enc_shape2 : ∀ bs : List Nat, bs.length % 3 = 2 →
    ∃ pre, b64EncChunks bs = pre ++ ['='] ∧ (∀ c ∈ pre, c ∈ b64Alpha) ∧
      pre.length = bs.length / 3 * 4 + 3
  | [], h => by simp at h
  | [b1], h => by simp at h
  | [b1, b2], _ => by
      refine ⟨[b64Chr (b1 / 4), b64Chr (b1 % 4 * 16 + b2 / 16),
        b64Chr (b2 % 16 * 4)], rfl, ?_, by simp⟩
      intro c hc
      simp at hc
      rcases hc with h | h | h <;> exact h ▸ b64Chr_mem _
  | [b1, b2, b3], h => by
      simp only [List.length_cons, List.length_nil] at h
      omega
  | b1 :: b2 :: b3 :: d :: rest, h => by
      have hm : (d :: rest).length % 3 = 2 := by
        simp only [List.length_cons] at h ⊢
        omega
      obtain ⟨pre, henc, halpha, hlen⟩ := b64Enc_shape2 (d :: rest) hm
      refine ⟨b64Chr (b1 / 4) :: b64Chr (b1 % 4 * 16 + b2 / 16) ::
        b64Chr (b2 % 16 * 4 + b3 / 64) :: b64Chr (b3 % 64) :: pre, ?_, ?_, ?_⟩
      · show b64EncChunks (b1 :: b2 :: b3 :: d :: rest) = _
        rw [b64EncChunks, henc]
        rfl
      · intro c hc
        simp only [List.mem_cons] at hc
        rcases hc with h | h | h | h | h
        · exact h ▸ b64Chr_mem _
        · exact h ▸ b64Chr_mem _
        · exact h ▸ b64Chr_mem _
        · exact h ▸ b64Chr_mem _
        · exact halpha c h
      · simp only [List.length_cons] at hlen ⊢
        omega

theorem keyShaped_of_32 (bs : List Nat) (h : bs.length = 32) :
    keyShaped (b64UrlEncode bs) = true := by
  obtain ⟨pre, henc, halpha, hlen⟩ := b64Enc_shape2 bs (by omega)
  rw [h] at hlen
  have hlen43 : pre.length = 43 := by omega
  unfold keyShaped b64UrlEncode
  rw [henc]
  rw [Bool.and_eq_true]
  constructor
  · rw [List.take_left' hlen43]
    rw [List.all_eq_true]
    intro c hc
    exact decide_eq_true (halpha c hc)
  · rw [List.drop_left' hlen43]
    exact decide_eq_true rfl

theorem couldLeak_aux (k post : List Char) (hk : keyShaped k = true) :
    couldLeak (k ++ post) = true := by
  unfold keyShaped at hk
  rw [Bool.and_eq_true, decide_eq_true_iff] at hk
  obtain ⟨hall, hdrop⟩ := hk
  have hlen : k.length = 44 := by
    have := congrArg List.length hdrop
    simp only [List.length_drop, List.length_cons, List.length_nil] at this
    have h43 : 43 < k.length := by
      by_contra hc
      rw [List.drop_eq_nil_of_le (by omega)] at hdrop
      exact absurd hdrop (by simp)
    omega
  have hwin : leakWindow (k ++ post) = true := by
    unfold leakWindow
    rw [Bool.and_eq_true]
    constructor
    · rw [List.take_append_eq_append_take]
      rw [show 43 - k.length = 0 from by omega]
      simp only [List.take_zero, List.append_nil]
      exact hall
    · rw [List.drop_append_eq_append_drop]
      rw [show 43 - k.length = 0 from by omega, hdrop]
      simp
  cases k with
  | nil => simp at hlen
  | cons a t =>
    rw [List.cons_append]
    unfold couldLeak
    rw [← List.cons_append, hwin]
    rfl

theorem couldLeak_of_containsSub (k l : List Char) (hk : keyShaped k = true)
    (hc : containsSub k l = true) : couldLeak l = true := by
  obtain ⟨pre, post, hl⟩ := containsSub_exists k l hc
  subst hl
  clear hc
  induction pre with
  | nil =>
    rw [List.nil_append]
    exact couldLeak_aux k post hk
  | cons c t ih =>
    rw [List.cons_append]
    unfold couldLeak
    rw [ih]
    simp

/-! ### Console output of the rotation paths (`encrypt_config.py`)

`rotate_master_key` and `rotate_master_key_all` also print operator
guidance; the success-path transcripts below mirror their `print(...)`
calls in source order.  The new master key value — including when it was
freshly generated rather than supplied — is interpolated verbatim into
the `export PROXMOX_MCP_MASTER_KEY=` lines (`encrypt_config.py:284` and
`encrypt_config.py:383`). -/

/-- Python `", ".join(fields)`. -/
def joinComma : List (List Char) → List Char
  | [] => []
  | [x] => x
  | x :: y :: rest => x ++ ", ".toList ++ joinComma (y :: rest)

/-- The console transcript of a successful `rotate_master_key` run
(`encrypt_config.py:225-288`): `newKeyGenerated` selects the
generated-vs-provided branch (lines 242-247), `rotatedFields` the report
branch (lines 277-280).  The closing next-steps block interpolates the
new key value (line 284). -/
def rotateMasterKeyOutput (configPath backupPath : List Char)
    (rotatedFields : List (List Char)) (newKeyGenerated : Bool)
    (newKey : List Char) : List (List Char) :=
  ([ "🔄 Starting key rotation for: ".toList ++ configPath,
     "".toList,
     "🔍 Verifying current master key...".toList,
     "✅ Current master key verified".toList,
     "💾 Creating backup...".toList,
     "✅ Backup created: ".toList ++ backupPath ] ++
   (if newKeyGenerated then
      [ "🔑 Generating new master key...".toList,
        "✅ New master key generated".toList ]
    else [ "🔑 Using provided new master key...".toList ]) ++
   ([ "".toList,
      "🔒 Key rotation completed successfully!".toList,
      "   Configuration: ".toList ++ configPath,
      "   Backup: ".toList ++ backupPath ] ++
    (if rotatedFields.isEmpty then
       [ "   No encrypted fields found to rotate".toList ]
     else [ "   Rotated fields: ".toList ++ joinComma rotatedFields ]))) ++
  [ "".toList,
    "📋 Next steps:".toList,
    "   1. Update your environment with the new master key:".toList,
    "      export PROXMOX_MCP_MASTER_KEY=".toList ++ newKey,
    "   2. Test the configuration:".toList,
    "      PROXMOX_MCP_CONFIG=".toList ++ configPath ++
      " python -m proxmox_mcp.server --test".toList,
    "   3. If successful, you can safely delete the backup file".toList,
    "   4. Update any other systems using the old key".toList ]

/-- The next-steps block `rotate_master_key_all` prints when at least
one file was rotated (`encrypt_config.py:379-386`); line 383
interpolates the shared new key value. -/
def rotateAllNextSteps (newKey : List Char) : List (List Char) :=
  [ "".toList,
    "📋 Next steps:".toList,
    "   1. Update your environment with the new master key:".toList,
    "      export PROXMOX_MCP_MASTER_KEY=".toList ++ newKey,
    "   2. Test each rotated configuration".toList,
    "   3. If successful, delete backup files".toList,
    "   4. Update any other systems using the old key".toList ]

theorem key_in_export_line (pre k : List Char) :
    containsSub k (pre ++ k) = true := by
  have := containsSub_of_append k pre []
  simpa using this

/-- C2 counterexample input: the all-zero 32-byte `os.urandom` draw. -/
def wGenBytes : List Nat := List.replicate 32 0

/-- C2 (as amended): only the ephemeral-generation path
(`_get_or_generate_master_key` with no environment key) withholds the
generated key value — no emitted warning line contains it — while every
other key-generating path prints the key value in its console guidance:
the explicit CLI key-generation output, the single-file rotation success
output and the bulk-rotation next-steps output each contain the
generated key verbatim. -/
theorem C2_ephemeral_key_not_printed (kb : List Nat) (hlen : kb.length = 32)
    (configPath backupPath : List Char) (rotatedFields : List (List Char))
    (newKeyGenerated : Bool) :
    (∀ line ∈ (getOrGenerateMasterKey none kb).2,
      containsSub ((getOrGenerateMasterKey none kb).1) line = false) ∧
    (∃ line ∈ cliGenerateKeyOutput (generateMasterKey kb),
      containsSub (generateMasterKey kb) line = true) ∧
    (∃ line ∈ rotateMasterKeyOutput configPath backupPath rotatedFields
        newKeyGenerated (generateMasterKey kb),
      containsSub (generateMasterKey kb) line = true) ∧
    (∃ line ∈ rotateAllNextSteps (generateMasterKey kb),
      containsSub (generateMasterKey kb) line = true) := by
  refine ⟨?_, ?_, ?_, ?_⟩
  · intro line hline
    have hshape : keyShaped (b64UrlEncode kb) = true := keyShaped_of_32 kb hlen
    by_cases hc : containsSub ((getOrGenerateMasterKey none kb).1) line = true
    · have hleak : couldLeak line = true :=
        couldLeak_of_containsSub _ line hshape hc
      have hnoleak : couldLeak line = false := by
        simp only [getOrGenerateMasterKey] at hline
        fin_cases hline <;> decide
      rw [hnoleak] at hleak
      exact absurd hleak (by decide)
    · exact Bool.of_not_eq_true hc
  · exact ⟨"   PROXMOX_MCP_MASTER_KEY=".toList ++ generateMasterKey kb,
      by simp [cliGenerateKeyOutput], key_in_export_line _ _⟩
  · exact ⟨"      export PROXMOX_MCP_MASTER_KEY=".toList ++ generateMasterKey kb,
      by simp [rotateMasterKeyOutput], key_in_export_line _ _⟩
  · exact ⟨"      export PROXMOX_MCP_MASTER_KEY=".toList ++ generateMasterKey kb,
      by simp [rotateAllNextSteps], key_in_export_line _ _⟩

theorem C2_ephemeral_key_not_printed_witness :
    (∀ line ∈ (getOrGenerateMasterKey none wGenBytes).2,
      containsSub ((getOrGenerateMasterKey none wGenBytes).1) line = false) ∧
    (∃ line ∈ cliGenerateKeyOutput (generateMasterKey wGenBytes),
      containsSub (generateMasterKey wGenBytes) line = true) ∧
    (∃ line ∈ rotateMasterKeyOutput "cfg/config1.json".toList
        "cfg/config1.json.backup.20240101_000000".toList
        ["auth.token_value".toList] true (generateMasterKey wGenBytes),
      containsSub (generateMasterKey wGenBytes) line = true) ∧
    (∃ line ∈ rotateAllNextSteps (generateMasterKey wGenBytes),
      containsSub (generateMasterKey wGenBytes) line = true) :=
  C2_ephemeral_key_not_printed wGenBytes (by decide) "cfg/config1.json".toList
    "cfg/config1.json.backup.20240101_000000".toList
    ["auth.token_value".toList] true

/-- C2 counterexample: at the concrete all-zero 32-byte draw, the
generated key value is written to the console by the explicit CLI
key-generation path and by both rotation paths — their output transcripts
each contain the key verbatim (`encrypt_config.py:56,60,284,383`) —
falsifying the claim that no key-generating code path ever writes the
key value to a console stream. -/
theorem C2_key_printed_counterexample :
    (∃ line ∈ cliGenerateKeyOutput (generateMasterKey wGenBytes),
      containsSub (generateMasterKey wGenBytes) line = true) ∧
    (∃ line ∈ rotateMasterKeyOutput "cfg/config1.json".toList
        "cfg/config1.json.backup.20240101_000000".toList
        ["auth.token_value".toList] true (generateMasterKey wGenBytes),
      containsSub (generateMasterKey wGenBytes) line = true) ∧
    (∃ line ∈ rotateAllNextSteps (generateMasterKey wGenBytes),
      containsSub (generateMasterKey wGenBytes) line = true) := by
  refine ⟨?_, ?_, ?_⟩ <;> decide

/-! ### Rotation-workflow lemmas -/

theorem jGet_jSet_self : ∀ (l : List (List Char × Json)) (k : List Char)
    (v v0 : Json), jGet l k = some v0 → jGet (jSet l k v) k = some v
  | [], k, v, v0, h => by simp [jGet] at h
  | (k2, v2) :: rest, k, v, v0, h => by
      by_cases hk : k2 = k
      · simp [jGet, jSet, hk]
      · simp only [jGet, jSet, if_neg hk] at h ⊢
        exact jGet_jSet_self rest k v v0 h

theorem jGet_jSet_ne : ∀ (l : List (List Char × Json)) (k k2 : List Char)
    (v : Json), k2 ≠ k → jGet (jSet l k v) k2 = jGet l k2
  | [], _, _, _, _ => rfl
  | (k3, v3) :: rest, k, k2, v, h => by
      by_cases hk : k3 = k
      · subst hk
        simp only [jSet, if_pos rfl, jGet]
        rw [if_neg (fun e => h e.symm), if_neg (fun e => h e.symm)]
        exact jGet_jSet_ne rest k3 k2 v h
      · simp only [jSet, if_neg hk, jGet]
        by_cases h3 : k3 = k2
        · rw [if_pos h3, if_pos h3]
        · rw [if_neg h3, if_neg h3]
          exact jGet_jSet_ne rest k k2 v h

theorem backupPath_ne (path ts : List Char) : backupPathOf path ts ≠ path := by
  intro h
  have := congrArg List.length h
  simp only [backupPathOf, List.length_append] at this
  have : (".backup.".toList).length + ts.length = 0 := by omega
  simp at this

theorem encTokenOf_obj (fields af : List (List Char × Json)) (tok : List Char)
    (hauth : jGet fields "auth".toList = some (.jobj af))
    (htv : jGet af "token_value".toList = some (.jstr tok))
    (hpre : isPre encPre tok = true) :
    encTokenOf (.jobj fields) = some tok := by
  unfold encTokenOf
  dsimp only
  rw [hauth]
  dsimp only
  rw [htv]
  dsimp only
  rw [if_pos hpre]

theorem setAuth_eq (fields af : List (List Char × Json)) (v : List Char)
    (hauth : jGet fields "auth".toList = some (.jobj af)) :
    setAuthTokenValue (.jobj fields) v =
      .jobj (jSet fields "auth".toList
        (.jobj (jSet af "token_value".toList (.jstr v)))) := by
  unfold setAuthTokenValue
  dsimp only
  rw [hauth]

theorem verify_true_of_decrypt_ok (fs : FS) (path : List Char) (doc : Json)
    (oldKey : List Char) (kb : List Nat) (tok pt : List Char)
    (hold : b64UrlDecode oldKey = some kb)
    (hdoc : fsGet fs path = some doc) (htok : encTokenOf doc = some tok)
    (hdec : decryptToken ⟨oldKey⟩ tok = .ok pt) :
    verifyConfigDecryption fs path oldKey = true := by
  unfold verifyConfigDecryption
  rw [if_neg (by rw [hold]; simp)]
  rw [hdoc]
  dsimp only
  rw [htok]
  dsimp only
  rw [hdec]

/-- C3: when the environment master key cannot decrypt the target file's
encrypted field, `rotate_master_key` exits with code 1 before any
filesystem change: the file table is returned unchanged, no backup path
exists and nothing was rotated. -/
theorem C3_rotation_abort (fs : FS) (path : List Char) (doc : Json)
    (oldKey genKey : List Char) (newKeyArg : Option (List Char))
    (freshSalt : List Nat) (ts tok e : List Char)
    (hdoc : fsGet fs path = some doc) (htok : encTokenOf doc = some tok)
    (hfail : decryptToken ⟨oldKey⟩ tok = .error e) :
    rotateMasterKey fs path newKeyArg (some oldKey) genKey freshSalt ts =
      ⟨fs, some 1, none, []⟩ := by
  have hver : verifyConfigDecryption fs path oldKey = false := by
    unfold verifyConfigDecryption
    by_cases hk : (b64UrlDecode oldKey).isNone = true
    · rw [if_pos hk]
    · rw [if_neg hk, hdoc]
      dsimp only
      rw [htok]
      dsimp only
      rw [hfail]
  unfold rotateMasterKey
  rw [hdoc]
  dsimp only
  rw [hver]
  rw [if_pos rfl]

def wDoc : Json := .jobj
  [("auth".toList, .jobj [("token_value".toList, .jstr wToken)]),
   ("name".toList, .jstr "config1".toList)]
def wAuthFields : List (List Char × Json) := [("token_value".toList, .jstr wToken)]
def wFields : List (List Char × Json) :=
  [("auth".toList, .jobj wAuthFields), ("name".toList, .jstr "config1".toList)]
def wPath : List Char := "cfg/config1.json".toList
def wFS : FS := [(wPath, wDoc)]
def wTs : List Char := "20240101_000000".toList

theorem C3_rotation_abort_witness :
    rotateMasterKey wFS wPath none (some wMasterKey2) wMasterKey wSalt2 wTs =
      ⟨wFS, some 1, none, []⟩ :=
  C3_rotation_abort wFS wPath wDoc wMasterKey2 wMasterKey none wSalt2 wTs
    wToken (decWrap invalidTokenMsg) rfl rfl
    (decryptToken_wrong_key wMasterKey wMasterKey2 wMasterBytes wMasterBytes2
      wSalt wPlain wToken rfl rfl (by decide) (by decide) rfl)

/-- C6: a successful single-file rotation yields exactly: a timestamped
backup holding the pre-rotation document, the original path rewritten
with only `auth.token_value` replaced by a token that decrypts under the
new key to the original plaintext, exit-free completion, and all other
fields (at both the top level and inside `auth`) unchanged. -/
theorem C6_rotation_atomicity (fs : FS) (path : List Char)
    (fields af : List (List Char × Json)) (oldKey newKey genKey : List Char)
    (kbOld kbNew freshSalt : List Nat) (ts tok pt : List Char)
    (hdoc : fsGet fs path = some (.jobj fields))
    (hauth : jGet fields "auth".toList = some (.jobj af))
    (htv : jGet af "token_value".toList = some (.jstr tok))
    (hpre : isPre encPre tok = true)
    (hold : b64UrlDecode oldKey = some kbOld)
    (hnew : b64UrlDecode newKey = some kbNew)
    (hdec : decryptToken ⟨oldKey⟩ tok = .ok pt)
    (hsalt : ∀ b ∈ freshSalt, b < 256) :
    ∃ newTok,
      rotateMasterKey fs path (some newKey) (some oldKey) genKey freshSalt ts =
        ⟨fsSet (fsSet fs (backupPathOf path ts) (.jobj fields)) path
            (.jobj (jSet fields "auth".toList
              (.jobj (jSet af "token_value".toList (.jstr newTok))))),
          none, some (backupPathOf path ts), ["auth.token_value".toList]⟩ ∧
      fsGet (rotateMasterKey fs path (some newKey) (some oldKey) genKey
          freshSalt ts).fs (backupPathOf path ts) = some (.jobj fields) ∧
      decryptToken ⟨newKey⟩ newTok = .ok pt ∧
      (∀ k, k ≠ "auth".toList →
        jGet (jSet fields "auth".toList
          (.jobj (jSet af "token_value".toList (.jstr newTok)))) k =
            jGet fields k) ∧
      (∀ k, k ≠ "token_value".toList →
        jGet (jSet af "token_value".toList (.jstr newTok)) k = jGet af k) := by
  have htok : encTokenOf (.jobj fields) = some tok :=
    encTokenOf_obj fields af tok hauth htv hpre
  have hver : verifyConfigDecryption fs path oldKey = true :=
    verify_true_of_decrypt_ok fs path (.jobj fields) oldKey kbOld tok pt hold
      hdoc htok hdec
  have henc := encryptToken_ok newKey kbNew freshSalt pt hnew
  refine ⟨encPre ++ b64UrlEncode freshSalt ++
    ':' :: b64UrlEncode (fernetEncrypt (pbkdf2 kbNew freshSalt) (strEncode pt)),
    ?_, ?_, ?_, ?_, ?_⟩
  case _ =>
    unfold rotateMasterKey
    rw [hdoc]
    dsimp only
    rw [hver]
    rw [if_neg (by decide)]
    simp only [Option.getD_some]
    rw [if_neg (by rw [hold, hnew]; simp)]
    rw [htok]
    dsimp only
    rw [hdec]
    dsimp only
    rw [henc]
    dsimp only
    rw [setAuth_eq fields af _ hauth]
  case _ =>
    unfold rotateMasterKey
    rw [hdoc]
    dsimp only
    rw [hver]
    rw [if_neg (by decide)]
    simp only [Option.getD_some]
    rw [if_neg (by rw [hold, hnew]; simp)]
    rw [htok]
    dsimp only
    rw [hdec]
    dsimp only
    rw [henc]
    dsimp only
    rw [fsGet_fsSet_ne _ path (backupPathOf path ts) _ (backupPath_ne path ts)]
    exact fsGet_fsSet_eq fs (backupPathOf path ts) (.jobj fields)
  case _ =>
    exact decryptToken_encryptToken newKey kbNew freshSalt pt _ hnew hsalt henc
  case _ =>
    intro k hk
    exact jGet_jSet_ne fields "auth".toList k _ hk
  case _ =>
    intro k hk
    exact jGet_jSet_ne af "token_value".toList k _ hk

theorem C6_rotation_atomicity_witness :
    ∃ newTok,
      rotateMasterKey wFS wPath (some wMasterKey2) (some wMasterKey) wMasterKey
          wSalt2 wTs =
        ⟨fsSet (fsSet wFS (backupPathOf wPath wTs) (.jobj wFields)) wPath
            (.jobj (jSet wFields "auth".toList
              (.jobj (jSet wAuthFields "token_value".toList (.jstr newTok))))),
          none, some (backupPathOf wPath wTs), ["auth.token_value".toList]⟩ ∧
      fsGet (rotateMasterKey wFS wPath (some wMasterKey2) (some wMasterKey)
          wMasterKey wSalt2 wTs).fs (backupPathOf wPath wTs) =
        some (.jobj wFields) ∧
      decryptToken ⟨wMasterKey2⟩ newTok = .ok wPlain ∧
      (∀ k, k ≠ "auth".toList →
        jGet (jSet wFields "auth".toList
          (.jobj (jSet wAuthFields "token_value".toList (.jstr newTok)))) k =
            jGet wFields k) ∧
      (∀ k, k ≠ "token_value".toList →
        jGet (jSet wAuthFields "token_value".toList (.jstr newTok)) k =
          jGet wAuthFields k) :=
  C6_rotation_atomicity wFS wPath wFields wAuthFields wMasterKey wMasterKey2
    wMasterKey wMasterBytes wMasterBytes2 wSalt2 wTs wToken wPlain
    rfl rfl rfl (by decide) rfl rfl
    (decryptToken_encryptToken wMasterKey wMasterBytes wSalt wPlain wToken
      rfl (by decide) rfl)
    (by decide)

/-- C10: a config file with no encrypted field still goes through the
full single-file workflow — verification trivially passes, a timestamped
backup is created, the document is rewritten unchanged and the rotated
list is empty — while the bulk loop skips such a file before any backup,
leaving the filesystem and both report lists untouched for it. -/
theorem C10_rotate_no_encrypted_field (fs : FS) (path : List Char)
    (doc : Json) (oldKey genKey : List Char) (kb kbN freshSalt : List Nat)
    (newKeyArg : Option (List Char)) (newKey ts : List Char)
    (rest : List (List Char)) (salts : List (List Nat))
    (ok : List (List Char)) (bad : List (List Char × List Char))
    (hdoc : fsGet fs path = some doc) (hnotok : encTokenOf doc = none)
    (hold : b64UrlDecode oldKey = some kb)
    (hnewv : b64UrlDecode (newKeyArg.getD genKey) = some kbN) :
    rotateMasterKey fs path newKeyArg (some oldKey) genKey freshSalt ts =
      ⟨fsSet (fsSet fs (backupPathOf path ts) doc) path doc, none,
        some (backupPathOf path ts), []⟩ ∧
    bulkLoop (some oldKey) newKey genKey ts fs (path :: rest) salts ok bad =
      bulkLoop (some oldKey) newKey genKey ts fs rest salts ok bad := by
  have hver : verifyConfigDecryption fs path oldKey = true := by
    unfold verifyConfigDecryption
    rw [if_neg (by rw [hold]; simp)]
    rw [hdoc]
    dsimp only
    rw [hnotok]
  constructor
  · unfold rotateMasterKey
    rw [hdoc]
    dsimp only
    rw [hver]
    rw [if_neg (by decide)]
    rw [if_neg (by rw [hold, hnewv]; simp)]
    rw [hnotok]
  · conv_lhs => rw [bulkLoop]
    rw [hdoc]
    dsimp only
    rw [hnotok]

def wDocPlain : Json := .jobj
  [("auth".toList, .jobj [("token_value".toList, .jstr "plain-token".toList)]),
   ("name".toList, .jstr "config3".toList)]
def wPathPlain : List Char := "cfg/config_plain.json".toList
def wFSPlain : FS := [(wPathPlain, wDocPlain)]

theorem C10_rotate_no_encrypted_field_witness :
    rotateMasterKey wFSPlain wPathPlain none (some wMasterKey) wMasterKey2
        wSalt2 wTs =
      ⟨fsSet (fsSet wFSPlain (backupPathOf wPathPlain wTs) wDocPlain)
          wPathPlain wDocPlain, none,
        some (backupPathOf wPathPlain wTs), []⟩ ∧
    bulkLoop (some wMasterKey) wMasterKey2 wMasterKey2 wTs wFSPlain
        [wPathPlain] [] [] [] =
      bulkLoop (some wMasterKey) wMasterKey2 wMasterKey2 wTs wFSPlain
        [] [] [] [] :=
  C10_rotate_no_encrypted_field wFSPlain wPathPlain wDocPlain wMasterKey
    wMasterKey2 wMasterBytes wMasterBytes2 wSalt2 none wMasterKey2 wTs
    [] [] [] [] rfl rfl rfl rfl

def wDirPath : List Char := "cfg".toList
def wPathA : List Char := "cfg/a.json".toList
def wPathB : List Char := "cfg/b.json".toList
def wTokenBadKey : List Char :=
  (encryptToken ⟨wMasterKey2⟩ wSalt wPlain).toOption.getD []
def wDocA : Json := .jobj
  [("auth".toList, .jobj [("token_value".toList, .jstr wTokenBadKey)])]
def wDocB : Json := .jobj
  [("auth".toList, .jobj [("token_value".toList, .jstr wToken)])]
def wFS2 : FS := [(wPathA, wDocA), (wPathB, wDocB)]
def wNewKey : List Char := generateMasterKey (List.replicate 32 11)
def wSaltsList : List (List Nat) := [wSalt2, wSalt2]

set_option maxRecDepth 10000 in
/-- C4 (code bug, evaluated at the failing input): in a directory whose
first candidate file cannot be verified under the environment key
(`a.json` is encrypted under a different master key) while the second
(`b.json`) is rotatable, `rotate_master_key_all` terminates with the
`sys.exit(1)` raised inside `rotate_master_key` — `SystemExit` is not an
`Exception`, so the loop's handler does not catch it: no `(file, error)`
entry is recorded, `b.json` is never rotated (the filesystem is
unchanged), and the success/failure report is never produced, contrary
to the documented record-and-continue design. -/
theorem C4_bulk_rotation_aborts_on_file_failure :
    rotateMasterKeyAll wFS2 wDirPath (some wNewKey) (some wMasterKey)
        wNewKey wSaltsList wTs = ⟨wFS2, some 1, [], []⟩ ∧
      fsGet wFS2 wPathB = some wDocB :=
  ⟨rfl, rfl⟩
